import Mathlib

/-
Verification of the worker module
`src/website/public/CesiumUnminified/Workers/createCoplanarPolygonOutlineGeometry.js`.

The module builds a closed-loop line-list geometry for the outline of a
coplanar polygon, and provides pack/unpack serialization of the polygon
description across a worker boundary.

Machine doubles are modelled by exact rationals; JS numeric buffers by
`List ℚ` with `List.set` writes (matching typed-array semantics: an
out-of-bounds write is dropped, length never changes).  External library
routines that the module calls but that are not part of the repository
source are modelled from the spec and marked as such in their doc comments.
-/

/-- A 3D point (Cesium `Cartesian3`), coordinates as exact rationals. -/
structure Point3 where
  x : ℚ
  y : ℚ
  z : ℚ
deriving DecidableEq

/-- Componentwise difference of two points (`Cartesian3.subtract`). -/
def Point3.sub (a b : Point3) : Point3 :=
  ⟨a.x - b.x, a.y - b.y, a.z - b.z⟩

/-- Cross product of two vectors (`Cartesian3.cross`). -/
def Point3.cross (a b : Point3) : Point3 :=
  ⟨a.y * b.z - a.z * b.y, a.z * b.x - a.x * b.z, a.x * b.y - a.y * b.x⟩

/-- Dot product of two vectors (`Cartesian3.dot`). -/
def Point3.dot (a b : Point3) : ℚ :=
  a.x * b.x + a.y * b.y + a.z * b.z

/-- The zero vector. -/
def Point3.zero : Point3 := ⟨0, 0, 0⟩

/-- Component datatype tag of a geometry attribute; the module only uses
the double-precision tag. -/
inductive ComponentDatatype where
  | DOUBLE
deriving DecidableEq

/-- Primitive type tag; the module only emits the line-list tag. -/
inductive PrimitiveType where
  | LINES
deriving DecidableEq

/-- A named numeric vertex buffer (`GeometryAttribute`). -/
structure GeometryAttribute where
  componentDatatype : ComponentDatatype
  componentsPerAttribute : ℕ
  values : List ℚ
deriving DecidableEq

/-- A bounding sphere.  The radius is stored squared so that the model
stays inside exact rational arithmetic. -/
structure BoundingSphere where
  center : Point3
  radiusSq : ℚ
deriving DecidableEq

/-- A geometry: its position attribute, index buffer, primitive-type tag
and optional bounding sphere. -/
structure Geometry where
  position : GeometryAttribute
  indices : List ℕ
  primitiveType : PrimitiveType
  boundingSphere : Option BoundingSphere := none
deriving DecidableEq

/-- The flattened position buffer written by the loop in
`createGeometryFromPositions`: x, y, z of each point in input order. -/
def flattenPositions : List Point3 → List ℚ
  | [] => []
  | p :: ps => p.x :: p.y :: p.z :: flattenPositions ps

/-- The index buffer written by the loop in `createGeometryFromPositions`:
iteration at loop counter `i` appends the pair `(i, (i + 1) % length)`;
the last argument counts the iterations left (`length - i`). -/
def cyclicEdgeLoop (length : ℕ) : ℕ → ℕ → List ℕ
  | _, 0 => []
  | i, r + 1 => i :: ((i + 1) % length) :: cyclicEdgeLoop length (i + 1) r

/-- `createGeometryFromPositions` of the source: flattened double-precision
position buffer, closed-loop line-list index buffer, primitive type LINES. -/
def createGeometryFromPositions (positions : List Point3) : Geometry :=
  let length := positions.length
  let flatPositions := flattenPositions positions
  let indices := cyclicEdgeLoop length 0 length
  { position :=
      { componentDatatype := ComponentDatatype.DOUBLE
        componentsPerAttribute := 3
        values := flatPositions }
    indices := indices
    primitiveType := PrimitiveType.LINES
    boundingSphere := none }

/-- A polygon hierarchy: an outer ring of positions plus nested hole
hierarchies (`PolygonHierarchy`). -/
inductive PolygonHierarchy where
  | mk (positions : List Point3) (holes : List PolygonHierarchy)

/-- Outer ring of a hierarchy. -/
def PolygonHierarchy.positions : PolygonHierarchy → List Point3
  | .mk ps _ => ps

/-- Holes of a hierarchy. -/
def PolygonHierarchy.holes : PolygonHierarchy → List PolygonHierarchy
  | .mk _ hs => hs

mutual
/-- Number of hierarchy nodes (outer ring plus all nested holes). -/
def nodeCount : PolygonHierarchy → ℕ
  | .mk _ holes => 1 + nodeCountList holes
/-- Total node count of a list of hierarchies. -/
def nodeCountList : List PolygonHierarchy → ℕ
  | [] => 0
  | h :: t => nodeCount h + nodeCountList t
end

mutual
/-- Modelled from the spec: `PolygonGeometryLibrary.computeHierarchyPackedLength`
(the routine lives outside this repository file).  Per the wire format, a
hierarchy takes one slot for the point count, three per point, one for the
hole count, and the packed lengths of the holes, recursively. -/
def computeHierarchyPackedLength : PolygonHierarchy → ℕ
  | .mk ps holes => 2 + 3 * ps.length + computeHierarchyPackedLengthList holes
/-- Packed length of a list of hole hierarchies. -/
def computeHierarchyPackedLengthList : List PolygonHierarchy → ℕ
  | [] => 0
  | h :: t => computeHierarchyPackedLength h + computeHierarchyPackedLengthList t
end

mutual
/-- Modelled from the spec: the flat wire format written by
`PolygonGeometryLibrary.packPolygonHierarchy` (the routine lives outside
this repository file): outer-ring point count, outer-ring coordinates
(three numbers per point), hole count, then each hole recursively. -/
def encodeHierarchy : PolygonHierarchy → List ℚ
  | .mk ps holes =>
    ((ps.length : ℕ) : ℚ) :: (flattenPositions ps ++ (((holes.length : ℕ) : ℚ) :: encodeHoles holes))
/-- Concatenated wire encodings of a list of hole hierarchies. -/
def encodeHoles : List PolygonHierarchy → List ℚ
  | [] => []
  | h :: t => encodeHierarchy h ++ encodeHoles t
end

/-- Write a list of values into a buffer starting at index `s`, one
`List.set` per value (the element-by-element writes of the JS pack loop;
an out-of-bounds write is dropped, as on a typed array). -/
def writeVals : List ℚ → ℕ → List ℚ → List ℚ
  | a, _, [] => a
  | a, s, v :: vs => writeVals (a.set s v) (s + 1) vs

/-- Modelled from the spec: `PolygonGeometryLibrary.packPolygonHierarchy`
(the routine lives outside this repository file).  Writes the wire-format
encoding of the hierarchy into the buffer at the starting index and
returns the updated buffer together with the next free index. -/
def packPolygonHierarchy (polygonHierarchy : PolygonHierarchy) (array : List ℚ)
    (startingIndex : ℕ) : List ℚ × ℕ :=
  (writeVals array startingIndex (encodeHierarchy polygonHierarchy),
   startingIndex + (encodeHierarchy polygonHierarchy).length)

/-- Reading a nonnegative integral count back out of a buffer slot
(the JS code uses the number directly as a loop bound). -/
def qToNat (q : ℚ) : ℕ := q.num.toNat

/-- Read `n` consecutive points (three coordinates each) from the buffer
starting at index `s` (the `Cartesian3.pack` layout read back). -/
def readPoints (a : List ℚ) : ℕ → ℕ → Option (List Point3 × ℕ)
  | s, 0 => some ([], s)
  | s, n + 1 =>
    match a[s]?, a[s + 1]?, a[s + 2]? with
    | some x, some y, some z =>
      match readPoints a (s + 3) n with
      | some (ps, s1) => some (⟨x, y, z⟩ :: ps, s1)
      | none => none
    | _, _, _ => none

mutual
/-- Modelled from the spec: `PolygonGeometryLibrary.unpackPolygonHierarchy`
(the routine lives outside this repository file), reading the wire format
back: point count, points, hole count, then each hole recursively.
The unbounded JS recursion is modelled with explicit fuel. -/
def unpackHierarchyFuel : ℕ → List ℚ → ℕ → Option (PolygonHierarchy × ℕ)
  | 0, _, _ => none
  | fuel + 1, a, s =>
    match a[s]? with
    | none => none
    | some cnt =>
      match readPoints a (s + 1) (qToNat cnt) with
      | none => none
      | some (ps, s1) =>
        match a[s1]? with
        | none => none
        | some hcnt =>
          match readHolesFuel fuel a (s1 + 1) (qToNat hcnt) with
          | none => none
          | some (holes, s2) => some (.mk ps holes, s2)
/-- Read `m` consecutive hole hierarchies from the buffer. -/
def readHolesFuel : ℕ → List ℚ → ℕ → ℕ → Option (List PolygonHierarchy × ℕ)
  | 0, _, _, _ => none
  | _ + 1, _, s, 0 => some ([], s)
  | fuel + 1, a, s, m + 1 =>
    match unpackHierarchyFuel fuel a s with
    | none => none
    | some (h, s1) =>
      match readHolesFuel fuel a s1 m with
      | none => none
      | some (hs, s2) => some (h :: hs, s2)
end

/-- Modelled from the spec: the wrapper corresponding to
`PolygonGeometryLibrary.unpackPolygonHierarchy`, with fuel ample for any
hierarchy whose encoding fits in the buffer. -/
def unpackPolygonHierarchy (array : List ℚ) (startingIndex : ℕ) :
    Option (PolygonHierarchy × ℕ) :=
  unpackHierarchyFuel (2 * array.length + 2) array startingIndex

/-- The descriptor type `CoplanarPolygonOutlineGeometry`: the polygon
hierarchy together with the fields the constructor installs.  The packed
length is kept as a buffer value (a rational) since `unpack` reads it
straight out of the buffer. -/
structure CoplanarPolygonOutlineGeometry where
  _polygonHierarchy : PolygonHierarchy
  _workerName : String
  packedLength : ℚ
  _ellipsoid : Option Unit := none

/-- The dynamic options object accepted by the constructor: the single
recognized field `polygonHierarchy`, possibly absent. -/
structure CtorOptions where
  polygonHierarchy : Option PolygonHierarchy

/-- The constructor `CoplanarPolygonOutlineGeometry(options)`: defaults an
absent options object, requires `options.polygonHierarchy` (throwing a
developer error if absent), and installs the worker name and the
precomputed packed length (hierarchy packed length plus one for the
trailing total-length slot). -/
def CoplanarPolygonOutlineGeometry.ofOptions (options : Option CtorOptions) :
    Except String CoplanarPolygonOutlineGeometry :=
  let options := options.getD ⟨none⟩
  match options.polygonHierarchy with
  | none => .error "options.polygonHierarchy is required."
  | some polygonHierarchy =>
    .ok { _polygonHierarchy := polygonHierarchy
          _workerName := "createCoplanarPolygonOutlineGeometry"
          packedLength := ((computeHierarchyPackedLength polygonHierarchy + 1 : ℕ) : ℚ)
          _ellipsoid := none }

/-- The dynamic options object accepted by `fromPositions`: the single
recognized field `positions`, possibly absent. -/
structure FromPositionsOptions where
  positions : Option (List Point3)

/-- `CoplanarPolygonOutlineGeometry.fromPositions`: requires
`options.positions` and forwards to the constructor with a single-ring
hierarchy (a hierarchy object carrying only a `positions` field, hence no
holes). -/
def CoplanarPolygonOutlineGeometry.fromPositions (options : Option FromPositionsOptions) :
    Except String CoplanarPolygonOutlineGeometry :=
  let options := options.getD ⟨none⟩
  match options.positions with
  | none => .error "options.positions is required."
  | some positions =>
    CoplanarPolygonOutlineGeometry.ofOptions
      (some ⟨some (PolygonHierarchy.mk positions [])⟩)

/-- `CoplanarPolygonOutlineGeometry.pack`: writes the hierarchy encoding at
the starting index, then the descriptor's `packedLength` in the slot
immediately after, and returns the buffer. -/
def CoplanarPolygonOutlineGeometry.pack (value : CoplanarPolygonOutlineGeometry)
    (array : List ℚ) (startingIndex : ℕ) : List ℚ :=
  let packed := packPolygonHierarchy value._polygonHierarchy array startingIndex
  packed.1.set packed.2 value.packedLength

/-- The scratch descriptor `new CoplanarPolygonOutlineGeometry(scratchOptions)`
allocated by `unpack` when no result object is supplied: built from the
empty hierarchy object `{}` (no positions, no holes). -/
def scratchDescriptor : CoplanarPolygonOutlineGeometry :=
  { _polygonHierarchy := PolygonHierarchy.mk [] []
    _workerName := "createCoplanarPolygonOutlineGeometry"
    packedLength := ((computeHierarchyPackedLength (PolygonHierarchy.mk [] []) + 1 : ℕ) : ℚ)
    _ellipsoid := none }

/-- `CoplanarPolygonOutlineGeometry.unpack`: reads the hierarchy back from
the buffer at the starting index, then the trailing packed length, storing
both into the supplied result object or a freshly allocated one.  A read
past the data the buffer holds is a parse failure (`none`). -/
def CoplanarPolygonOutlineGeometry.unpack (array : List ℚ) (startingIndex : ℕ)
    (result : Option CoplanarPolygonOutlineGeometry) :
    Option CoplanarPolygonOutlineGeometry :=
  match unpackPolygonHierarchy array startingIndex with
  | none => none
  | some (polygonHierarchy, idx) =>
    match array[idx]? with
    | none => none
    | some packedLength =>
      let base := result.getD scratchDescriptor
      some { base with _polygonHierarchy := polygonHierarchy, packedLength := packedLength }

/-- Modelled from the spec: `Cartesian3.equalsEpsilon` as used by the
deduplication step (the routine lives outside this repository file).  The
epsilon is an external-library parameter the spec leaves configurable; it
is modelled as exact equality (epsilon zero). -/
def equalsEpsilon (a b : Point3) : Bool := a = b

/-- The body of the deduplication loop: keep a point only when it differs
from the last kept point `prev`. -/
def dedupFrom (prev : Point3) : List Point3 → List Point3
  | [] => []
  | p :: rest => if equalsEpsilon prev p then dedupFrom prev rest else p :: dedupFrom p rest

/-- Remove each point that equals the most recently kept point. -/
def removeAdjacentDuplicates : List Point3 → List Point3
  | [] => []
  | p :: rest => p :: dedupFrom p rest

/-- Modelled from the spec: `arrayRemoveDuplicates` with wrap-around
(the routine lives outside this repository file): consecutive-equal points
are deduplicated and, treating the ring as cyclic, a final point equal to
the first is dropped. -/
def arrayRemoveDuplicates (values : List Point3) : List Point3 :=
  let deduped := removeAdjacentDuplicates values
  match deduped with
  | [] => []
  | x :: _ =>
    if 2 ≤ deduped.length ∧ deduped.getLast? = some x then deduped.dropLast else deduped

/-- Modelled from the spec:
`CoplanarPolygonGeometryLibrary.validOutline` (the routine lives outside
this repository file): the points must span a genuine two-dimensional
outline (not all collinear) and be coplanar. -/
def validOutline (positions : List Point3) : Bool :=
  match positions with
  | [] => false
  | p0 :: rest =>
    match rest.find? (fun p => !(equalsEpsilon (p.sub p0) Point3.zero)) with
    | none => false
    | some p1 =>
      let u := p1.sub p0
      match rest.find? (fun p => !(equalsEpsilon (u.cross (p.sub p0)) Point3.zero)) with
      | none => false
      | some p2 =>
        let n := u.cross (p2.sub p0)
        rest.all (fun p => n.dot (p.sub p0) = 0)

mutual
/-- Modelled from the spec:
`PolygonGeometryLibrary.polygonOutlinesFromHierarchy` (the routine lives
outside this repository file): decompose the hierarchy into simple outline
rings — the outer ring and each hole ring, recursively — deduplicating
each ring and keeping those with at least three points. -/
def polygonOutlinesFromHierarchy : PolygonHierarchy → List (List Point3)
  | .mk ps holes =>
    let ring := arrayRemoveDuplicates ps
    (if 3 ≤ ring.length then [ring] else []) ++ outlinesFromHoles holes
/-- Outline rings contributed by a list of hole hierarchies. -/
def outlinesFromHoles : List PolygonHierarchy → List (List Point3)
  | [] => []
  | h :: t => polygonOutlinesFromHierarchy h ++ outlinesFromHoles t
end

/-- Merge the second geometry into the first: concatenated position
buffers, the second index buffer offset by the first vertex count. -/
def combineTwo (g1 g2 : Geometry) : Geometry :=
  let offset := g1.position.values.length / 3
  { position :=
      { componentDatatype := g1.position.componentDatatype
        componentsPerAttribute := g1.position.componentsPerAttribute
        values := g1.position.values ++ g2.position.values }
    indices := g1.indices ++ g2.indices.map (· + offset)
    primitiveType := g1.primitiveType
    boundingSphere := none }

/-- Modelled from the spec: `GeometryPipeline.combineInstances` (the
routine lives outside this repository file): combine the per-ring
geometries into a single merged geometry — concatenated buffers, indices
offset per ring. -/
def combineInstances (geometries : List Geometry) : List Geometry :=
  match geometries with
  | [] => []
  | g :: t => [t.foldl combineTwo g]

/-- Fold of the componentwise minimum of a point list. -/
def pointsMin : Point3 → List Point3 → Point3
  | acc, [] => acc
  | acc, p :: ps => pointsMin ⟨min acc.x p.x, min acc.y p.y, min acc.z p.z⟩ ps

/-- Fold of the componentwise maximum of a point list. -/
def pointsMax : Point3 → List Point3 → Point3
  | acc, [] => acc
  | acc, p :: ps => pointsMax ⟨max acc.x p.x, max acc.y p.y, max acc.z p.z⟩ ps

/-- Modelled from the spec: `BoundingSphere.fromPoints` (the routine lives
outside this repository file): a bounding sphere over a point set — center
at the midpoint of the axis-aligned bounding box, squared radius the
largest squared distance from the center to a point. -/
def BoundingSphere.fromPoints (positions : List Point3) : BoundingSphere :=
  match positions with
  | [] => ⟨Point3.zero, 0⟩
  | p :: rest =>
    let lo := pointsMin p rest
    let hi := pointsMax p rest
    let center : Point3 := ⟨(lo.x + hi.x) / 2, (lo.y + hi.y) / 2, (lo.z + hi.z) / 2⟩
    let rsq := (p :: rest).foldl (fun acc q => max acc ((q.sub center).dot (q.sub center))) 0
    ⟨center, rsq⟩

/-- `CoplanarPolygonOutlineGeometry.createGeometry`: deduplicate the outer
ring; bail out (no geometry) on fewer than three remaining points, an
invalid outline, or an empty hierarchy decomposition; otherwise build one
line-list geometry per outline ring, combine them, and attach a bounding
sphere computed from the original (pre-deduplication) outer-ring
positions. -/
def CoplanarPolygonOutlineGeometry.createGeometry
    (polygonGeometry : CoplanarPolygonOutlineGeometry) : Option Geometry :=
  let polygonHierarchy := polygonGeometry._polygonHierarchy
  let outerPositions := arrayRemoveDuplicates polygonHierarchy.positions
  if outerPositions.length < 3 then none
  else if !validOutline outerPositions then none
  else
    let polygons := polygonOutlinesFromHierarchy polygonHierarchy
    if polygons.length = 0 then none
    else
      let geometries := polygons.map createGeometryFromPositions
      match combineInstances geometries with
      | [] => none
      | geometry :: _ =>
        let boundingSphere := BoundingSphere.fromPoints polygonHierarchy.positions
        some { position := geometry.position
               indices := geometry.indices
               primitiveType := geometry.primitiveType
               boundingSphere := some boundingSphere }

/-- `createGeometry` with the state of the input descriptor threaded
through explicitly: every step of the source either rebinds a local
(`outerPositions`) or reads the hierarchy, so the descriptor travels
through unchanged to the returned state. -/
def CoplanarPolygonOutlineGeometry.createGeometryTracked
    (polygonGeometry : CoplanarPolygonOutlineGeometry) :
    Option Geometry × CoplanarPolygonOutlineGeometry :=
  let polygonHierarchy := polygonGeometry._polygonHierarchy
  let outerPositions := arrayRemoveDuplicates polygonHierarchy.positions
  if outerPositions.length < 3 then (none, polygonGeometry)
  else if !validOutline outerPositions then (none, polygonGeometry)
  else
    let polygons := polygonOutlinesFromHierarchy polygonHierarchy
    if polygons.length = 0 then (none, polygonGeometry)
    else
      let geometries := polygons.map createGeometryFromPositions
      match combineInstances geometries with
      | [] => (none, polygonGeometry)
      | geometry :: _ =>
        let boundingSphere := BoundingSphere.fromPoints polygonHierarchy.positions
        (some { position := geometry.position
                indices := geometry.indices
                primitiveType := geometry.primitiveType
                boundingSphere := some boundingSphere },
         polygonGeometry)

/-- The worker's dynamically-typed first argument: a descriptor when no
offset is supplied, a packed buffer when an offset is supplied. -/
inductive WorkerArg where
  | geometry (d : CoplanarPolygonOutlineGeometry)
  | packed (buffer : List ℚ)

/-- The worker entry point `createCoplanarPolygonOutlineGeometry`: when an
offset is supplied the first argument is a packed buffer and is unpacked
at that offset; the descriptor's `_ellipsoid` field is then reassigned to
a clone of itself (the engine's clone routine, passed in as `cloneFn`),
and `createGeometry` runs on the descriptor. -/
def createCoplanarPolygonOutlineGeometry (cloneFn : Option Unit → Option Unit)
    (polygonGeometry : WorkerArg) (offset : Option ℕ) : Option Geometry :=
  let descriptor : Option CoplanarPolygonOutlineGeometry :=
    match offset with
    | some off =>
      match polygonGeometry with
      | .packed buffer => CoplanarPolygonOutlineGeometry.unpack buffer off none
      | .geometry _ => none
    | none =>
      match polygonGeometry with
      | .geometry d => some d
      | .packed _ => none
  descriptor.bind fun pg =>
    CoplanarPolygonOutlineGeometry.createGeometry { pg with _ellipsoid := cloneFn pg._ellipsoid }

/-- The worker entry point as the spec words it: if the offset is defined,
unpack the descriptor from the buffer at that offset and run
`createGeometry` on the result; otherwise run `createGeometry` on the
argument directly — nothing else. -/
def workerEntrySpec (polygonGeometry : WorkerArg) (offset : Option ℕ) : Option Geometry :=
  match offset with
  | some off =>
    (match polygonGeometry with
     | .packed buffer => CoplanarPolygonOutlineGeometry.unpack buffer off none
     | .geometry _ => none).bind CoplanarPolygonOutlineGeometry.createGeometry
  | none =>
    (match polygonGeometry with
     | .geometry d => some d
     | .packed _ => none).bind CoplanarPolygonOutlineGeometry.createGeometry

/-- A unit square in the plane z = 0: four distinct coplanar points. -/
def squareRing : List Point3 := [⟨0, 0, 0⟩, ⟨1, 0, 0⟩, ⟨1, 1, 0⟩, ⟨0, 1, 0⟩]

/-- A triangular ring inside the square, used as a hole. -/
def holeRing : List Point3 := [⟨1/4, 1/4, 0⟩, ⟨1/2, 1/4, 0⟩, ⟨1/4, 1/2, 0⟩]

/-- A sample hierarchy: the square outer ring with one triangular hole. -/
def sampleHierarchy : PolygonHierarchy := .mk squareRing [.mk holeRing []]

/-- The descriptor the constructor builds on the sample hierarchy. -/
def sampleDescriptor : CoplanarPolygonOutlineGeometry :=
  { _polygonHierarchy := sampleHierarchy
    _workerName := "createCoplanarPolygonOutlineGeometry"
    packedLength := ((computeHierarchyPackedLength sampleHierarchy + 1 : ℕ) : ℚ)
    _ellipsoid := none }

/-- The square ring with a consecutive duplicate of its first point. -/
def squareRingDup : List Point3 :=
  [⟨0, 0, 0⟩, ⟨0, 0, 0⟩, ⟨1, 0, 0⟩, ⟨1, 1, 0⟩, ⟨0, 1, 0⟩]

/-- The descriptor the constructor builds on the duplicated square ring
(no holes). -/
def dupDescriptor : CoplanarPolygonOutlineGeometry :=
  { _polygonHierarchy := PolygonHierarchy.mk squareRingDup []
    _workerName := "createCoplanarPolygonOutlineGeometry"
    packedLength := ((computeHierarchyPackedLength (PolygonHierarchy.mk squareRingDup []) + 1 : ℕ) : ℚ)
    _ellipsoid := none }

/-- A descriptor produced by `unpack` from the buffer `[0, 0, 1]`: empty
hierarchy, stored packed length 1 (smaller than the space `pack` writes). -/
def cexDescriptor : CoplanarPolygonOutlineGeometry :=
  { _polygonHierarchy := PolygonHierarchy.mk [] []
    _workerName := "createCoplanarPolygonOutlineGeometry"
    packedLength := 1
    _ellipsoid := none }

/-- The geometry `createGeometry` produces on the (deduplicated) square
ring: square vertices, closed-loop index buffer, bounding sphere of the
square. -/
def sampleGeometry : Geometry :=
  { position :=
      { componentDatatype := ComponentDatatype.DOUBLE
        componentsPerAttribute := 3
        values := [0, 0, 0, 1, 0, 0, 1, 1, 0, 0, 1, 0] }
    indices := [0, 1, 1, 2, 2, 3, 3, 0]
    primitiveType := PrimitiveType.LINES
    boundingSphere := some ⟨⟨1/2, 1/2, 0⟩, 1/2⟩ }

/-- The buffer region starting at `s` holds exactly the values `vs`. -/
def regionEq (a : List ℚ) (s : ℕ) (vs : List ℚ) : Prop :=
  ∀ i, i < vs.length → a[s + i]? = vs[i]?

theorem regionEq_cons {a : List ℚ} {s : ℕ} {x : ℚ} {vs : List ℚ}
    (h : regionEq a s (x :: vs)) : a[s]? = some x ∧ regionEq a (s + 1) vs := by
  constructor
  · have h0 := h 0 (by simp)
    simpa using h0
  · intro i hi
    have := h (i + 1) (by simpa using Nat.succ_lt_succ hi)
    rw [show s + (i + 1) = s + 1 + i by omega] at this
    simpa using this

theorem regionEq_append {a : List ℚ} {s : ℕ} {u v : List ℚ}
    (h : regionEq a s (u ++ v)) : regionEq a s u ∧ regionEq a (s + u.length) v := by
  constructor
  · intro i hi
    have := h i (by simp; omega)
    rwa [List.getElem?_append, if_pos hi] at this
  · intro i hi
    have := h (u.length + i) (by simp; omega)
    rw [List.getElem?_append_right (by omega)] at this
    rw [show u.length + i - u.length = i by omega] at this
    rwa [show s + (u.length + i) = s + u.length + i by omega] at this

theorem length_writeVals (vs : List ℚ) : ∀ (a : List ℚ) (s : ℕ),
    (writeVals a s vs).length = a.length := by
  induction vs with
  | nil => intro a s; rfl
  | cons v vs ih =>
    intro a s
    rw [writeVals, ih, List.length_set]

theorem writeVals_frame (vs : List ℚ) : ∀ (a : List ℚ) (s j : ℕ),
    j < s ∨ s + vs.length ≤ j → (writeVals a s vs)[j]? = a[j]? := by
  induction vs with
  | nil => intro a s j _; rfl
  | cons v vs ih =>
    intro a s j hj
    have hj1 : j < s ∨ s + vs.length + 1 ≤ j := by
      rcases hj with h | h
      · exact Or.inl h
      · right
        simp only [List.length_cons] at h
        omega
    rw [writeVals, ih (a.set s v) (s + 1) j (by omega)]
    rw [List.getElem?_set_ne (by omega)]

theorem writeVals_regionEq (vs : List ℚ) : ∀ (a : List ℚ) (s : ℕ),
    s + vs.length ≤ a.length → regionEq (writeVals a s vs) s vs := by
  induction vs with
  | nil => intro a s _ i hi; simp at hi
  | cons v vs ih =>
    intro a s hlen i hi
    rw [writeVals]
    match i with
    | 0 =>
      rw [writeVals_frame vs (a.set s v) (s + 1) (s + 0) (by omega)]
      rw [show s + 0 = s by omega, List.getElem?_set_self (by simp at hlen ⊢; omega)]
      exact List.getElem?_cons_zero.symm
    | k + 1 =>
      have := ih (a.set s v) (s + 1) (by simp at hlen ⊢; omega) k (by simp at hi; omega)
      rw [show s + (k + 1) = s + 1 + k by omega]
      rw [this, List.getElem?_cons_succ]

theorem flattenPositions_length (ps : List Point3) :
    (flattenPositions ps).length = 3 * ps.length := by
  induction ps with
  | nil => rfl
  | cons p ps ih => simp [flattenPositions, ih]; omega

theorem flattenPositions_getElem_x (ps : List Point3) : ∀ i : ℕ,
    (flattenPositions ps)[3 * i]? = ps[i]?.map Point3.x := by
  induction ps with
  | nil => intro i; rfl
  | cons p ps ih =>
    intro i
    match i with
    | 0 => simp [flattenPositions]
    | k + 1 =>
      rw [flattenPositions, show 3 * (k + 1) = 3 * k + 1 + 1 + 1 by ring]
      rw [List.getElem?_cons_succ, List.getElem?_cons_succ, List.getElem?_cons_succ]
      rw [ih k, List.getElem?_cons_succ]

theorem flattenPositions_getElem_y (ps : List Point3) : ∀ i : ℕ,
    (flattenPositions ps)[3 * i + 1]? = ps[i]?.map Point3.y := by
  induction ps with
  | nil => intro i; rfl
  | cons p ps ih =>
    intro i
    match i with
    | 0 => simp [flattenPositions]
    | k + 1 =>
      rw [flattenPositions, show 3 * (k + 1) + 1 = 3 * k + 1 + 1 + 1 + 1 by ring]
      rw [List.getElem?_cons_succ, List.getElem?_cons_succ, List.getElem?_cons_succ]
      rw [ih k, List.getElem?_cons_succ]

theorem flattenPositions_getElem_z (ps : List Point3) : ∀ i : ℕ,
    (flattenPositions ps)[3 * i + 2]? = ps[i]?.map Point3.z := by
  induction ps with
  | nil => intro i; rfl
  | cons p ps ih =>
    intro i
    match i with
    | 0 => simp [flattenPositions]
    | k + 1 =>
      rw [flattenPositions, show 3 * (k + 1) + 2 = 3 * k + 2 + 1 + 1 + 1 by ring]
      rw [List.getElem?_cons_succ, List.getElem?_cons_succ, List.getElem?_cons_succ]
      rw [ih k, List.getElem?_cons_succ]

theorem cyclicEdgeLoop_length (n : ℕ) : ∀ (r i : ℕ), (cyclicEdgeLoop n i r).length = 2 * r := by
  intro r
  induction r with
  | zero => intro i; rfl
  | succ m ih =>
    intro i
    rw [cyclicEdgeLoop, List.length_cons, List.length_cons, ih (i + 1)]
    omega

theorem cyclicEdgeLoop_getElem (n : ℕ) : ∀ (k r i : ℕ), k < r →
    (cyclicEdgeLoop n i r)[2 * k]? = some (i + k) ∧
    (cyclicEdgeLoop n i r)[2 * k + 1]? = some ((i + k + 1) % n) := by
  intro k
  induction k with
  | zero =>
    intro r i hr
    match r, hr with
    | m + 1, _ =>
      rw [cyclicEdgeLoop]
      constructor
      · simp
      · simp
  | succ m ih =>
    intro r i hr
    match r, hr with
    | q + 1, _ =>
      rw [cyclicEdgeLoop]
      have h1 := ih q (i + 1) (by omega)
      constructor
      · rw [show 2 * (m + 1) = 2 * m + 1 + 1 by ring]
        rw [List.getElem?_cons_succ, List.getElem?_cons_succ]
        rw [h1.1, show i + 1 + m = i + (m + 1) by omega]
      · rw [show 2 * (m + 1) + 1 = 2 * m + 1 + 1 + 1 by ring]
        rw [List.getElem?_cons_succ, List.getElem?_cons_succ]
        rw [h1.2, show i + 1 + m + 1 = i + (m + 1) + 1 by omega]

theorem qToNat_natCast (n : ℕ) : qToNat ((n : ℕ) : ℚ) = n := by
  rw [qToNat, Rat.num_natCast, Int.toNat_natCast]

theorem readPoints_flatten (ps : List Point3) : ∀ (a : List ℚ) (s : ℕ),
    regionEq a s (flattenPositions ps) →
    readPoints a s ps.length = some (ps, s + 3 * ps.length) := by
  induction ps with
  | nil => intro a s _; simp [readPoints]
  | cons p ps ih =>
    intro a s h
    obtain ⟨hx, h1⟩ := regionEq_cons h
    obtain ⟨hy, h2⟩ := regionEq_cons h1
    obtain ⟨hz, h3⟩ := regionEq_cons h2
    rw [show s + 1 + 1 = s + 2 by omega] at hz
    have h3a : regionEq a (s + 3) (flattenPositions ps) := by
      rw [show s + 3 = s + 1 + 1 + 1 by omega]
      exact h3
    rw [List.length_cons, readPoints, hx, hy, hz, ih a (s + 3) h3a,
        show s + 3 + 3 * ps.length = s + 3 * (ps.length + 1) by ring]

mutual
theorem encodeHierarchy_length_eq (h : PolygonHierarchy) :
    (encodeHierarchy h).length = computeHierarchyPackedLength h := by
  match h with
  | .mk ps holes =>
    have hh := encodeHoles_length_eq holes
    rw [encodeHierarchy, computeHierarchyPackedLength, List.length_cons, List.length_append,
        List.length_cons, flattenPositions_length, hh]
    omega
theorem encodeHoles_length_eq (hs : List PolygonHierarchy) :
    (encodeHoles hs).length = computeHierarchyPackedLengthList hs := by
  match hs with
  | [] => rfl
  | h :: t =>
    have h1 := encodeHierarchy_length_eq h
    have h2 := encodeHoles_length_eq t
    rw [encodeHoles, computeHierarchyPackedLengthList, List.length_append, h1, h2]
end

mutual
theorem two_mul_nodeCount_le (h : PolygonHierarchy) :
    2 * nodeCount h ≤ (encodeHierarchy h).length := by
  match h with
  | .mk ps holes =>
    have hh := two_mul_nodeCountList_le holes
    rw [encodeHierarchy, nodeCount, List.length_cons, List.length_append, List.length_cons]
    omega
theorem two_mul_nodeCountList_le (hs : List PolygonHierarchy) :
    2 * nodeCountList hs ≤ (encodeHoles hs).length := by
  match hs with
  | [] => rw [nodeCountList, encodeHoles]; omega
  | h :: t =>
    have h1 := two_mul_nodeCount_le h
    have h2 := two_mul_nodeCountList_le t
    rw [nodeCountList, encodeHoles, List.length_append]
    omega
end

theorem one_le_nodeCount (h : PolygonHierarchy) : 1 ≤ nodeCount h := by
  match h with
  | .mk ps holes => rw [nodeCount]; omega

theorem unpack_roundtrip_fuel (fuel : ℕ) :
    (∀ (h : PolygonHierarchy) (a : List ℚ) (s : ℕ),
      2 * nodeCount h ≤ fuel → regionEq a s (encodeHierarchy h) →
      unpackHierarchyFuel fuel a s = some (h, s + (encodeHierarchy h).length)) ∧
    (∀ (hs : List PolygonHierarchy) (a : List ℚ) (s : ℕ),
      2 * nodeCountList hs + 1 ≤ fuel → regionEq a s (encodeHoles hs) →
      readHolesFuel fuel a s hs.length = some (hs, s + (encodeHoles hs).length)) := by
  induction fuel using Nat.strong_induction_on with
  | _ fuel IH =>
    constructor
    · rintro ⟨ps, holes⟩ a s hfuel hreg
      rw [nodeCount] at hfuel
      obtain ⟨f, rfl⟩ : ∃ f, fuel = f + 1 := ⟨fuel - 1, by omega⟩
      rw [encodeHierarchy] at hreg
      obtain ⟨hcnt, hreg1⟩ := regionEq_cons hreg
      obtain ⟨hregPts, hreg2⟩ := regionEq_append hreg1
      rw [flattenPositions_length] at hreg2
      obtain ⟨hholes, hreg3⟩ := regionEq_cons hreg2
      have hrp := readPoints_flatten ps a (s + 1) hregPts
      have hrh := (IH f (by omega)).2 holes a (s + 1 + 3 * ps.length + 1) (by omega) hreg3
      simp only [unpackHierarchyFuel, hcnt, qToNat_natCast, hrp, hholes, hrh]
      simp only [encodeHierarchy, List.length_cons, List.length_append, flattenPositions_length,
                 Option.some.injEq, Prod.mk.injEq, true_and]
      omega
    · intro hs a s hfuel hreg
      match hs with
      | [] =>
        rw [nodeCountList] at hfuel
        obtain ⟨f, rfl⟩ : ∃ f, fuel = f + 1 := ⟨fuel - 1, by omega⟩
        simp only [readHolesFuel, List.length_nil, encodeHoles]
        simp
      | h :: t =>
        rw [nodeCountList] at hfuel
        have hnc1 := one_le_nodeCount h
        obtain ⟨f, rfl⟩ : ∃ f, fuel = f + 1 := ⟨fuel - 1, by omega⟩
        rw [encodeHoles] at hreg
        obtain ⟨hregH, hregT⟩ := regionEq_append hreg
        have h1 := (IH f (by omega)).1 h a s (by omega) hregH
        have h2 := (IH f (by omega)).2 t a (s + (encodeHierarchy h).length) (by omega) hregT
        simp only [List.length_cons, readHolesFuel, h1, h2]
        simp only [encodeHoles, List.length_append, Option.some.injEq, Prod.mk.injEq, true_and]
        omega

theorem unpackPolygonHierarchy_roundtrip (h : PolygonHierarchy) (a : List ℚ) (s : ℕ)
    (hlen : s + (encodeHierarchy h).length ≤ a.length)
    (hreg : regionEq a s (encodeHierarchy h)) :
    unpackPolygonHierarchy a s = some (h, s + (encodeHierarchy h).length) := by
  have hb := two_mul_nodeCount_le h
  exact (unpack_roundtrip_fuel (2 * a.length + 2)).1 h a s (by omega) hreg

theorem pack_spec (v : CoplanarPolygonOutlineGeometry) (a : List ℚ) (s : ℕ)
    (hbuf : s + computeHierarchyPackedLength v._polygonHierarchy + 1 ≤ a.length) :
    (CoplanarPolygonOutlineGeometry.pack v a s).length = a.length ∧
    regionEq (CoplanarPolygonOutlineGeometry.pack v a s) s (encodeHierarchy v._polygonHierarchy) ∧
    (CoplanarPolygonOutlineGeometry.pack v a s)[s + computeHierarchyPackedLength v._polygonHierarchy]? =
      some v.packedLength := by
  have hE := encodeHierarchy_length_eq v._polygonHierarchy
  have hlen0 : s + (encodeHierarchy v._polygonHierarchy).length ≤ a.length := by omega
  refine ⟨?_, ?_, ?_⟩
  · simp only [CoplanarPolygonOutlineGeometry.pack, packPolygonHierarchy]
    rw [List.length_set, length_writeVals]
  · intro i hi
    simp only [CoplanarPolygonOutlineGeometry.pack, packPolygonHierarchy]
    rw [List.getElem?_set_ne (by omega)]
    exact writeVals_regionEq _ a s hlen0 i hi
  · simp only [CoplanarPolygonOutlineGeometry.pack, packPolygonHierarchy]
    rw [← hE, List.getElem?_set_self (by rw [length_writeVals]; omega)]

theorem pack_frame (v : CoplanarPolygonOutlineGeometry) (a : List ℚ) (s j : ℕ)
    (hj : j < s ∨ s + computeHierarchyPackedLength v._polygonHierarchy + 1 ≤ j) :
    (CoplanarPolygonOutlineGeometry.pack v a s)[j]? = a[j]? := by
  have hE := encodeHierarchy_length_eq v._polygonHierarchy
  simp only [CoplanarPolygonOutlineGeometry.pack, packPolygonHierarchy]
  rw [List.getElem?_set_ne (by omega), writeVals_frame _ _ _ _ (by omega)]

/-- C1: for every ordered list of N ≥ 3 distinct 3D points,
`createGeometryFromPositions` returns a geometry whose position attribute
is a buffer of 3N doubles holding each point's x, y, z in input order,
whose index buffer has length 2N and contains, for each i in 0..N-1, the
consecutive pair (i, (i+1) mod N) — exactly the cyclic edge set — and
whose primitive type is the line-list tag. -/
theorem createGeometryFromPositions_closed_loop (positions : List Point3)
    (_hlen : 3 ≤ positions.length) (_hdistinct : positions.Nodup) :
    (createGeometryFromPositions positions).position.componentDatatype =
      ComponentDatatype.DOUBLE ∧
    (createGeometryFromPositions positions).position.componentsPerAttribute = 3 ∧
    (createGeometryFromPositions positions).position.values.length = 3 * positions.length ∧
    (∀ i, i < positions.length →
      (createGeometryFromPositions positions).position.values[3 * i]? =
        positions[i]?.map Point3.x ∧
      (createGeometryFromPositions positions).position.values[3 * i + 1]? =
        positions[i]?.map Point3.y ∧
      (createGeometryFromPositions positions).position.values[3 * i + 2]? =
        positions[i]?.map Point3.z) ∧
    (createGeometryFromPositions positions).indices.length = 2 * positions.length ∧
    (∀ i, i < positions.length →
      (createGeometryFromPositions positions).indices[2 * i]? = some i ∧
      (createGeometryFromPositions positions).indices[2 * i + 1]? =
        some ((i + 1) % positions.length)) ∧
    (createGeometryFromPositions positions).primitiveType = PrimitiveType.LINES := by
  refine ⟨rfl, rfl, flattenPositions_length positions, ?_, cyclicEdgeLoop_length _ _ 0, ?_, rfl⟩
  · intro i _
    exact ⟨flattenPositions_getElem_x positions i, flattenPositions_getElem_y positions i,
           flattenPositions_getElem_z positions i⟩
  · intro i hi
    have h := cyclicEdgeLoop_getElem positions.length i positions.length 0 hi
    simpa using h

/-- Witness for C1: the hypotheses and conclusion hold at the unit square. -/
theorem createGeometryFromPositions_closed_loop_witness :
    (3 ≤ squareRing.length ∧ squareRing.Nodup) ∧
    ((createGeometryFromPositions squareRing).position.componentDatatype =
      ComponentDatatype.DOUBLE ∧
    (createGeometryFromPositions squareRing).position.componentsPerAttribute = 3 ∧
    (createGeometryFromPositions squareRing).position.values.length = 3 * squareRing.length ∧
    (∀ i, i < squareRing.length →
      (createGeometryFromPositions squareRing).position.values[3 * i]? =
        squareRing[i]?.map Point3.x ∧
      (createGeometryFromPositions squareRing).position.values[3 * i + 1]? =
        squareRing[i]?.map Point3.y ∧
      (createGeometryFromPositions squareRing).position.values[3 * i + 2]? =
        squareRing[i]?.map Point3.z) ∧
    (createGeometryFromPositions squareRing).indices.length = 2 * squareRing.length ∧
    (∀ i, i < squareRing.length →
      (createGeometryFromPositions squareRing).indices[2 * i]? = some i ∧
      (createGeometryFromPositions squareRing).indices[2 * i + 1]? =
        some ((i + 1) % squareRing.length)) ∧
    (createGeometryFromPositions squareRing).primitiveType = PrimitiveType.LINES) :=
  ⟨⟨by decide, by decide⟩,
   createGeometryFromPositions_closed_loop squareRing (by decide) (by decide)⟩

/-- C2: for every descriptor, sufficiently large buffer and offset,
unpacking after packing reproduces the descriptor's ring structure and
coordinates (the whole hierarchy) and its packed length. -/
theorem pack_unpack_roundtrip (h : CoplanarPolygonOutlineGeometry) (buf : List ℚ) (off : ℕ)
    (hbuf : off + computeHierarchyPackedLength h._polygonHierarchy + 1 ≤ buf.length) :
    ∃ d, CoplanarPolygonOutlineGeometry.unpack
        (CoplanarPolygonOutlineGeometry.pack h buf off) off none = some d ∧
      d._polygonHierarchy = h._polygonHierarchy ∧
      d.packedLength = h.packedLength := by
  obtain ⟨hlen, hreg, hread⟩ := pack_spec h buf off hbuf
  have hE := encodeHierarchy_length_eq h._polygonHierarchy
  have hrt := unpackPolygonHierarchy_roundtrip h._polygonHierarchy
      (CoplanarPolygonOutlineGeometry.pack h buf off) off (by omega) hreg
  simp only [CoplanarPolygonOutlineGeometry.unpack, hrt, hE, hread]
  exact ⟨_, rfl, rfl, rfl⟩

/-- Witness for C2: round trip at the sample one-hole descriptor, offset 2,
buffer of 30 zeros. -/
theorem pack_unpack_roundtrip_witness :
    (2 + computeHierarchyPackedLength sampleDescriptor._polygonHierarchy + 1 ≤
      (List.replicate 30 (0 : ℚ)).length) ∧
    (∃ d, CoplanarPolygonOutlineGeometry.unpack
        (CoplanarPolygonOutlineGeometry.pack sampleDescriptor (List.replicate 30 0) 2) 2 none =
          some d ∧
      d._polygonHierarchy = sampleDescriptor._polygonHierarchy ∧
      d.packedLength = sampleDescriptor.packedLength) :=
  ⟨by decide, pack_unpack_roundtrip sampleDescriptor (List.replicate 30 0) 2 (by decide)⟩

/-- C6: for every descriptor, buffer with room for the encoding, and
offset, pack writes the hierarchy wire encoding starting at the offset,
then the descriptor's total packedLength as the single value immediately
following, and returns the caller's buffer (same length, updated in
place). -/
theorem pack_writes_encoding_then_length (v : CoplanarPolygonOutlineGeometry)
    (a : List ℚ) (s : ℕ)
    (hbuf : s + computeHierarchyPackedLength v._polygonHierarchy + 1 ≤ a.length) :
    regionEq (CoplanarPolygonOutlineGeometry.pack v a s) s
      (encodeHierarchy v._polygonHierarchy) ∧
    (CoplanarPolygonOutlineGeometry.pack v a s)[s +
      computeHierarchyPackedLength v._polygonHierarchy]? = some v.packedLength ∧
    (CoplanarPolygonOutlineGeometry.pack v a s).length = a.length := by
  obtain ⟨h1, h2, h3⟩ := pack_spec v a s hbuf
  exact ⟨h2, h3, h1⟩

/-- Witness for C6: pack at the sample one-hole descriptor, offset 2,
buffer of 30 zeros. -/
theorem pack_writes_encoding_then_length_witness :
    (2 + computeHierarchyPackedLength sampleDescriptor._polygonHierarchy + 1 ≤
      (List.replicate 30 (0 : ℚ)).length) ∧
    (regionEq (CoplanarPolygonOutlineGeometry.pack sampleDescriptor (List.replicate 30 0) 2) 2
      (encodeHierarchy sampleDescriptor._polygonHierarchy) ∧
    (CoplanarPolygonOutlineGeometry.pack sampleDescriptor (List.replicate 30 0) 2)[2 +
      computeHierarchyPackedLength sampleDescriptor._polygonHierarchy]? =
        some sampleDescriptor.packedLength ∧
    (CoplanarPolygonOutlineGeometry.pack sampleDescriptor (List.replicate 30 0) 2).length =
      (List.replicate 30 (0 : ℚ)).length) :=
  ⟨by decide, pack_writes_encoding_then_length sampleDescriptor (List.replicate 30 0) 2 (by decide)⟩

/-- C10 counterexample: a descriptor produced by `unpack` from the buffer
`[0, 0, 1]` stores packedLength 1, yet `pack` writes the slot at index 1 —
outside the claimed region [0, 0 + packedLength) — changing its value
from 9 to 0. -/
theorem pack_frame_packedLength_cex :
    CoplanarPolygonOutlineGeometry.unpack [0, 0, 1] 0 none = some cexDescriptor ∧
    cexDescriptor.packedLength = 1 ∧
    (CoplanarPolygonOutlineGeometry.pack cexDescriptor [9, 9, 9] 0)[1]? = some 0 ∧
    ([9, 9, 9] : List ℚ)[1]? = some 9 ∧
    ¬(∀ j : ℕ, qToNat cexDescriptor.packedLength ≤ j →
        (CoplanarPolygonOutlineGeometry.pack cexDescriptor [9, 9, 9] 0)[j]? =
          ([9, 9, 9] : List ℚ)[j]?) :=
  ⟨rfl, rfl, rfl, rfl, fun hall => absurd (hall 1 (by decide)) (by decide)⟩

/-- C10 (amended): pack modifies only the region
[startingIndex, startingIndex + hierarchy packed length + 1) it writes —
which equals [startingIndex, startingIndex + value.packedLength) whenever
the stored packedLength is the constructor's — and in particular every
element below startingIndex is unchanged. -/
theorem pack_modifies_only_written_region (v : CoplanarPolygonOutlineGeometry)
    (a : List ℚ) (s j : ℕ)
    (hj : j < s ∨ s + computeHierarchyPackedLength v._polygonHierarchy + 1 ≤ j) :
    (CoplanarPolygonOutlineGeometry.pack v a s)[j]? = a[j]? :=
  pack_frame v a s j hj

/-- Witness for the amended C10: index 0 lies below offset 2 and is
unchanged by pack. -/
theorem pack_modifies_only_written_region_witness :
    (0 < 2 ∨ 2 + computeHierarchyPackedLength sampleDescriptor._polygonHierarchy + 1 ≤ 0) ∧
    (CoplanarPolygonOutlineGeometry.pack sampleDescriptor (List.replicate 30 0) 2)[0]? =
      (List.replicate 30 (0 : ℚ))[0]? :=
  ⟨by decide,
   pack_modifies_only_written_region sampleDescriptor (List.replicate 30 0) 2 0 (by decide)⟩


theorem combineInstances_ne_nil (gs : List Geometry) (h : gs ≠ []) :
    combineInstances gs ≠ [] := by
  match gs with
  | [] => exact absurd rfl h
  | g :: t => simp [combineInstances]

/-- C3: for every descriptor, `createGeometry` returns the absent-result
sentinel, without raising an error, if and only if the input is
degenerate. -/
theorem createGeometry_none_iff_degenerate (pg : CoplanarPolygonOutlineGeometry) :
    CoplanarPolygonOutlineGeometry.createGeometry pg = none ↔
      ((arrayRemoveDuplicates pg._polygonHierarchy.positions).length < 3 ∨
       validOutline (arrayRemoveDuplicates pg._polygonHierarchy.positions) = false ∨
       polygonOutlinesFromHierarchy pg._polygonHierarchy = []) := by
  simp only [CoplanarPolygonOutlineGeometry.createGeometry]
  split
  next h1 => simp [h1]
  next h1 =>
    split
    next h2 =>
      simp only [Bool.not_eq_true'] at h2
      simp [h2]
    next h2 =>
      simp only [Bool.not_eq_true'] at h2
      split
      next h3 =>
        rw [List.length_eq_zero] at h3
        simp [h3]
      next h3 =>
        have h3a : polygonOutlinesFromHierarchy pg._polygonHierarchy ≠ [] := by
          intro hc
          rw [hc] at h3
          exact h3 rfl
        have h4 := combineInstances_ne_nil
          ((polygonOutlinesFromHierarchy pg._polygonHierarchy).map createGeometryFromPositions)
          (by simpa using h3a)
        split
        next heq => exact absurd heq h4
        next g1 t heq =>
          constructor
          · intro hc
            exact absurd hc (by simp)
          · intro hc
            rcases hc with hc | hc | hc
            · exact absurd hc h1
            · exact absurd hc h2
            · exact absurd hc h3a

/-- C4: whenever `createGeometry` returns a geometry, its bounding sphere
is computed from the original, pre-deduplication outer-ring point set of
the hierarchy, not from the deduplicated point list. -/
theorem createGeometry_boundingSphere_from_original (pg : CoplanarPolygonOutlineGeometry)
    (g : Geometry) (hg : CoplanarPolygonOutlineGeometry.createGeometry pg = some g) :
    g.boundingSphere = some (BoundingSphere.fromPoints pg._polygonHierarchy.positions) := by
  simp only [CoplanarPolygonOutlineGeometry.createGeometry] at hg
  split at hg
  next => exact absurd hg (by simp)
  next =>
    split at hg
    next => exact absurd hg (by simp)
    next =>
      split at hg
      next => exact absurd hg (by simp)
      next =>
        split at hg
        next => exact absurd hg (by simp)
        next =>
          rw [Option.some.injEq] at hg
          rw [← hg]

/-- Witness for C4: `createGeometry` succeeds on the duplicated square
ring, and the attached bounding sphere comes from the five original
points. -/
theorem createGeometry_boundingSphere_from_original_witness :
    CoplanarPolygonOutlineGeometry.createGeometry dupDescriptor = some sampleGeometry ∧
    sampleGeometry.boundingSphere =
      some (BoundingSphere.fromPoints dupDescriptor._polygonHierarchy.positions) := by
  have hg : CoplanarPolygonOutlineGeometry.createGeometry dupDescriptor = some sampleGeometry := by
    norm_num [CoplanarPolygonOutlineGeometry.createGeometry, dupDescriptor, squareRingDup,
              sampleGeometry, arrayRemoveDuplicates, removeAdjacentDuplicates, dedupFrom,
              equalsEpsilon, validOutline, polygonOutlinesFromHierarchy, outlinesFromHoles,
              combineInstances, combineTwo, createGeometryFromPositions, flattenPositions,
              cyclicEdgeLoop, BoundingSphere.fromPoints, pointsMin, pointsMax, Point3.sub,
              Point3.dot, Point3.cross, Point3.zero, PolygonHierarchy.positions, List.find?]
  exact ⟨hg, createGeometry_boundingSphere_from_original dupDescriptor sampleGeometry hg⟩

theorem createGeometry_ellipsoid_irrelevant (pg : CoplanarPolygonOutlineGeometry)
    (e : Option Unit) :
    CoplanarPolygonOutlineGeometry.createGeometry { pg with _ellipsoid := e } =
      CoplanarPolygonOutlineGeometry.createGeometry pg := rfl

/-- C5: the worker entry point is observationally equivalent to the
conditional unpack followed by `createGeometry`, for every engine clone
routine, argument and offset. -/
theorem worker_entry_refines_spec (cloneFn : Option Unit → Option Unit)
    (polygonGeometry : WorkerArg) (offset : Option ℕ) :
    createCoplanarPolygonOutlineGeometry cloneFn polygonGeometry offset =
      workerEntrySpec polygonGeometry offset := by
  match offset, polygonGeometry with
  | some off, .packed buffer =>
    cases h : CoplanarPolygonOutlineGeometry.unpack buffer off none with
    | none => simp [createCoplanarPolygonOutlineGeometry, workerEntrySpec, h]
    | some pg =>
      simp [createCoplanarPolygonOutlineGeometry, workerEntrySpec, h,
            createGeometry_ellipsoid_irrelevant]
  | some off, .geometry d =>
    simp [createCoplanarPolygonOutlineGeometry, workerEntrySpec]
  | none, .geometry d =>
    simp [createCoplanarPolygonOutlineGeometry, workerEntrySpec,
          createGeometry_ellipsoid_irrelevant]
  | none, .packed buffer =>
    simp [createCoplanarPolygonOutlineGeometry, workerEntrySpec]

/-- C7: the constructor fails when the polygon hierarchy option is absent
(whether the options object itself is absent or lacks the field), and for
every present hierarchy it succeeds with packedLength equal to the
hierarchy's packed length plus one. -/
theorem ctor_requires_hierarchy_and_packs_length :
    (∃ e, CoplanarPolygonOutlineGeometry.ofOptions none = .error e) ∧
    (∃ e, CoplanarPolygonOutlineGeometry.ofOptions (some ⟨none⟩) = .error e) ∧
    (∀ h : PolygonHierarchy, ∃ d,
      CoplanarPolygonOutlineGeometry.ofOptions (some ⟨some h⟩) = .ok d ∧
      d.packedLength = ((computeHierarchyPackedLength h + 1 : ℕ) : ℚ)) :=
  ⟨⟨_, rfl⟩, ⟨_, rfl⟩, fun h =>
    ⟨{ _polygonHierarchy := h
       _workerName := "createCoplanarPolygonOutlineGeometry"
       packedLength := ((computeHierarchyPackedLength h + 1 : ℕ) : ℚ)
       _ellipsoid := none }, rfl, rfl⟩⟩

/-- C8: `fromPositions` returns the descriptor built by the constructor on
a single-ring hierarchy whose outer ring is the given positions and which
has no holes. -/
theorem fromPositions_single_ring (positions : List Point3) :
    CoplanarPolygonOutlineGeometry.fromPositions (some ⟨some positions⟩) =
      CoplanarPolygonOutlineGeometry.ofOptions
        (some ⟨some (PolygonHierarchy.mk positions [])⟩) := rfl

/-- C9: `createGeometry` leaves the input descriptor and its polygon
hierarchy unchanged: threading the descriptor state through every step of
the computation returns it untouched (deduplication rebinds a local, never
the hierarchy), and the tracked result agrees with `createGeometry`. -/
theorem createGeometry_leaves_descriptor_unchanged (pg : CoplanarPolygonOutlineGeometry) :
    (CoplanarPolygonOutlineGeometry.createGeometryTracked pg).2 = pg ∧
    (CoplanarPolygonOutlineGeometry.createGeometryTracked pg).2._polygonHierarchy.positions =
      pg._polygonHierarchy.positions ∧
    (CoplanarPolygonOutlineGeometry.createGeometryTracked pg).2._polygonHierarchy.holes =
      pg._polygonHierarchy.holes ∧
    (CoplanarPolygonOutlineGeometry.createGeometryTracked pg).1 =
      CoplanarPolygonOutlineGeometry.createGeometry pg := by
  have hsnd : (CoplanarPolygonOutlineGeometry.createGeometryTracked pg).2 = pg := by
    simp only [CoplanarPolygonOutlineGeometry.createGeometryTracked]
    split
    next => rfl
    next =>
      split
      next => rfl
      next =>
        split
        next => rfl
        next => split <;> rfl
  have hfst : (CoplanarPolygonOutlineGeometry.createGeometryTracked pg).1 =
      CoplanarPolygonOutlineGeometry.createGeometry pg := by
    simp only [CoplanarPolygonOutlineGeometry.createGeometryTracked,
               CoplanarPolygonOutlineGeometry.createGeometry]
    split
    next => rfl
    next =>
      split
      next => rfl
      next =>
        split
        next => rfl
        next => split <;> rfl
  exact ⟨hsnd, by rw [hsnd], by rw [hsnd], hfst⟩
